import Mathlib

/-!
Verification of the catalog service's persistence layer.

The development shallowly embeds the two Go backends of the repository:

* the SQLite-backed server (`saveItem`, `checkCategoryId`, `saveImage`,
  `readItems`, `searchItems`, `getImg`, `getInfoById`): the database is a
  pair of row lists (`categories`, `items`) together with the next rowids
  SQLite would assign; statement-level failures of the storage engine are
  injected through an explicit oracle so that the transaction logic of
  `saveItem` can be analysed on every failure path;
* the legacy JSON-file backend (`Legacy.getInfo`): an ordered list of item
  records with positional 1-based lookup.

Byte strings are lists of naturals; SHA-256 is implemented concretely so
that the content address `hex(sha256(bytes)) ++ ".jpg"` computed by
`saveImage` is the real one.
-/

/- ## SHA-256 (Go `crypto/sha256`, as used by `saveImage`) -/

/-- 2^32, the word modulus of SHA-256. -/
def M32 : Nat := 4294967296

/-- Right rotation of a 32-bit word. -/
def rotr32 (n x : Nat) : Nat :=
  ((x >>> n) ||| (x <<< (32 - n))) % M32

/-- The 64 SHA-256 round constants. -/
def sha256K : List Nat :=
  [1116352408, 1899447441, 3049323471, 3921009573, 961987163, 1508970993,
   2453635748, 2870763221, 3624381080, 310598401, 607225278, 1426881987,
   1925078388, 2162078206, 2614888103, 3248222580, 3835390401, 4022224774,
   264347078, 604807628, 770255983, 1249150122, 1555081692, 1996064986,
   2554220882, 2821834349, 2952996808, 3210313671, 3336571891, 3584528711,
   113926993, 338241895, 666307205, 773529912, 1294757372, 1396182291,
   1695183700, 1986661051, 2177026350, 2456956037, 2730485921, 2820302411,
   3259730800, 3345764771, 3516065817, 3600352804, 4094571909, 275423344,
   430227734, 506948616, 659060556, 883997877, 958139571, 1322822218,
   1537002063, 1747873779, 1955562222, 2024104815, 2227730452, 2361852424,
   2428436474, 2756734187, 3204031479, 3329325298]

/-- The initial SHA-256 hash state. -/
def sha256H0 : List Nat :=
  [1779033703, 3144134277, 1013904242, 2773480762,
   1359893119, 2600822924, 528734635, 1541459225]

/-- `toBytesBE n v` is the `n`-byte big-endian encoding of `v`. -/
def toBytesBE : Nat → Nat → List Nat
  | 0, _ => []
  | n + 1, v => toBytesBE n (v >>> 8) ++ [v % 256]

/-- SHA-256 padding: a `0x80` byte, zeros, then the 64-bit bit length,
bringing the length to a multiple of 64 bytes. -/
def padMessage (msg : List Nat) : List Nat :=
  let len := msg.length
  let zeros := (120 - ((len + 1) % 64)) % 64
  msg ++ [128] ++ List.replicate zeros 0 ++ toBytesBE 8 (len * 8)

/-- Group bytes four at a time into big-endian 32-bit words. -/
def bytesToWords : List Nat → List Nat
  | a :: b :: c :: d :: rest => (((a * 256 + b) * 256 + c) * 256 + d) :: bytesToWords rest
  | _ => []

/-- Split a byte list into 64-byte blocks (fuel-driven so that it reduces
definitionally). -/
def toBlocksAux : Nat → List Nat → List (List Nat)
  | 0, _ => []
  | _ + 1, [] => []
  | fuel + 1, a :: l => (a :: l).take 64 :: toBlocksAux fuel ((a :: l).drop 64)

/-- Split a byte list into 64-byte blocks. -/
def toBlocks (l : List Nat) : List (List Nat) :=
  toBlocksAux l.length l

/-- The next word of the SHA-256 message schedule, from the last 16 words. -/
def nextScheduleWord (w : List Nat) : Nat :=
  let n := w.length
  let w15 := w.getD (n - 15) 0
  let w2 := w.getD (n - 2) 0
  let s0 := (rotr32 7 w15) ^^^ (rotr32 18 w15) ^^^ (w15 >>> 3)
  let s1 := (rotr32 17 w2) ^^^ (rotr32 19 w2) ^^^ (w2 >>> 10)
  (w.getD (n - 16) 0 + s0 + w.getD (n - 7) 0 + s1) % M32

/-- Extend the 16 block words to the 64-word message schedule. -/
def schedule (w0 : List Nat) : List Nat :=
  (List.range 48).foldl (fun w _ => w ++ [nextScheduleWord w]) w0

/-- One SHA-256 compression round on the 8-word working state. -/
def compressStep (s : List Nat) (kw : Nat × Nat) : List Nat :=
  let a := s.getD 0 0
  let b := s.getD 1 0
  let c := s.getD 2 0
  let d := s.getD 3 0
  let e := s.getD 4 0
  let f := s.getD 5 0
  let g := s.getD 6 0
  let h := s.getD 7 0
  let s1 := (rotr32 6 e) ^^^ (rotr32 11 e) ^^^ (rotr32 25 e)
  let ch := (e &&& f) ^^^ ((M32 - 1 - e) &&& g)
  let t1 := (h + s1 + ch + kw.1 + kw.2) % M32
  let s0 := (rotr32 2 a) ^^^ (rotr32 13 a) ^^^ (rotr32 22 a)
  let mj := (a &&& b) ^^^ (a &&& c) ^^^ (b &&& c)
  let t2 := (s0 + mj) % M32
  [(t1 + t2) % M32, a, b, c, (d + t1) % M32, e, f, g]

/-- Compress one 64-byte block into the hash state. -/
def compressBlock (h : List Nat) (block : List Nat) : List Nat :=
  let w := schedule (bytesToWords block)
  let fin := (sha256K.zip w).foldl compressStep h
  (h.zip fin).map (fun p => (p.1 + p.2) % M32)

/-- SHA-256 of a byte list, as eight 32-bit words. -/
def sha256 (msg : List Nat) : List Nat :=
  (toBlocks (padMessage msg)).foldl compressBlock sha256H0

/-- Lowercase hex digit, as printed by Go's `%x` verb. -/
def hexChar (n : Nat) : Char :=
  if n < 10 then Char.ofNat (48 + n) else Char.ofNat (87 + n)

/-- The eight hex digits of a 32-bit word, most significant first. -/
def wordToHex (v : Nat) : List Char :=
  (List.range 8).map (fun i => hexChar ((v >>> (28 - 4 * i)) % 16))

/-- Lowercase hex string of a word list — `fmt.Sprintf("%x", hash)`. -/
def hexDigest (ws : List Nat) : String :=
  String.mk (ws.flatMap wordToHex)

/- ## Image store (`saveImage` and the images directory) -/

/-- Byte payloads are lists of naturals (one per byte). -/
abbrev Bytes := List Nat

/-- The images directory: an association list from file name to content. -/
abbrev FileSys := List (String × Bytes)

/-- Content of the file with the given name, if it exists. -/
def fsLookup (fs : FileSys) (name : String) : Option Bytes :=
  (fs.find? (fun e => e.1 == name)).map Prod.snd

/-- The effect of `os.Create` followed by `os.WriteFile`: replace the file's
content if it exists, create it otherwise. -/
def fsWrite : FileSys → String → Bytes → FileSys
  | [], name, content => [(name, content)]
  | e :: rest, name, content =>
    if e.1 == name then (name, content) :: rest
    else e :: fsWrite rest name content

/-- The file name `fmt.Sprintf("%x.jpg", sha256.Sum256(source))` computed by
`saveImage`. -/
def imageFileName (source : Bytes) : String :=
  hexDigest (sha256 source) ++ ".jpg"

/-- `saveImage` from the source: hash the bytes, write the blob under the
content-derived name inside the images directory, and return that name.
(`os.MkdirAll` and the I/O error returns concern the host filesystem and are
outside the model, which is total.) -/
def saveImage (fs : FileSys) (source : Bytes) : String × FileSys :=
  let fileName := imageFileName source
  (fileName, fsWrite fs fileName source)

/- ## SQLite-backed store -/

/-- A row of `categories(id PRIMARY KEY, name TEXT)`. -/
structure CategoryRow where
  id : Nat
  name : String
deriving DecidableEq

/-- A row of `items(id PRIMARY KEY, name TEXT, image_name TEXT, category_id)`. -/
structure ItemRow where
  id : Nat
  name : String
  imageName : String
  categoryId : Nat
deriving DecidableEq

/-- The database: both tables in rowid order, plus the rowid each table's
next `INSERT` would be assigned by SQLite. -/
structure DBState where
  categories : List CategoryRow
  items : List ItemRow
  nextCategoryId : Nat
  nextItemId : Nat
deriving DecidableEq

/-- Failure injection for the storage engine: each flag makes the
corresponding database/sql call return a (non-`ErrNoRows`) error. -/
structure DBOracle where
  beginFails : Bool
  categoryQueryFails : Bool
  categoryInsertFails : Bool
  lastInsertIdFails : Bool
  itemInsertFails : Bool
  commitFails : Bool
  rollbackFails : Bool
deriving DecidableEq

/-- The oracle under which every storage-engine call succeeds. -/
def noFail : DBOracle :=
  ⟨false, false, false, false, false, false, false⟩

/-- The step at which `saveItem` can fail, mirroring the distinct wrapped
errors of the source. -/
inductive DBError
  | beginTx
  | categoryQuery
  | categoryInsert
  | lastInsertId
  | itemInsert
  | commitTx
deriving DecidableEq

/-- `SELECT id FROM categories WHERE name = ?` via `QueryRow`: the first row
in rowid order whose name matches, if any. -/
def findCategory (cats : List CategoryRow) (name : String) : Option CategoryRow :=
  cats.find? (fun r => r.name == name)

/-- `checkCategoryId` from the source: look the category name up inside the
transaction; on `ErrNoRows` insert a new row and return `LastInsertId`,
otherwise return the id found. A failed call's transaction-local writes are
discarded by `saveItem`'s rollback, so errors carry no state. -/
def checkCategoryId (o : DBOracle) (category : String) (tx : DBState) :
    Except DBError (Nat × DBState) :=
  if o.categoryQueryFails then .error .categoryQuery
  else
    match findCategory tx.categories category with
    | some row => .ok (row.id, tx)
    | none =>
      if o.categoryInsertFails then .error .categoryInsert
      else
        let newId := tx.nextCategoryId
        let tx1 : DBState :=
          { tx with
            categories := tx.categories ++ [⟨newId, category⟩],
            nextCategoryId := newId + 1 }
        if o.lastInsertIdFails then .error .lastInsertId
        else .ok (newId, tx1)

/-- Equality of fallible results is decidable (needed to evaluate the model
on concrete inputs). -/
instance {α β : Type} [DecidableEq α] [DecidableEq β] :
    DecidableEq (Except α β) := fun a b =>
  match a, b with
  | .error e, .error f =>
    if h : e = f then .isTrue (by rw [h]) else .isFalse (by simp [h])
  | .error _, .ok _ => .isFalse (by simp)
  | .ok _, .error _ => .isFalse (by simp)
  | .ok n, .ok m =>
    if h : n = m then .isTrue (by rw [h]) else .isFalse (by simp [h])

/-- What a call to `saveItem` leaves behind: the committed database visible
afterwards, the value returned to the caller (the Go function returns only
the error; the model also exposes the rowid of the inserted item so that
specifications can name the created row), and whether the deferred
`tx.Rollback()` logged a rollback error. -/
structure SaveResult where
  db : DBState
  result : Except DBError Nat
  rollbackLogged : Bool
deriving DecidableEq

/-- `saveItem` from the source: begin a transaction, resolve or create the
category inside it, insert the item row, commit. The deferred `tx.Rollback()`
runs on every path after a successful `Begin`: before a commit attempt it
actually rolls the transaction back (failing only if the oracle says so, in
which case the failure is merely logged); after a commit attempt it returns
`ErrTxDone`, which is likewise only logged. -/
def saveItem (o : DBOracle) (db : DBState) (name category fileName : String) :
    SaveResult :=
  if o.beginFails then ⟨db, .error .beginTx, false⟩
  else
    match checkCategoryId o category db with
    | .error e => ⟨db, .error e, o.rollbackFails⟩
    | .ok (categoryId, tx1) =>
      if o.itemInsertFails then ⟨db, .error .itemInsert, o.rollbackFails⟩
      else
        let newItemId := tx1.nextItemId
        let tx2 : DBState :=
          { tx1 with
            items := tx1.items ++ [⟨newItemId, name, fileName, categoryId⟩],
            nextItemId := newItemId + 1 }
        if o.commitFails then ⟨db, .error .commitTx, true⟩
        else ⟨tx2, .ok newItemId, true⟩

/- ## Read paths (`readItems`, `searchItems`, `getInfoById`) -/

/-- The JSON item shape of the source (`image_name` omitted from list and
search responses, where scanning fills only name and category). -/
structure Item where
  name : String
  category : String
  imageName : String
deriving DecidableEq

/-- One row of `items JOIN categories ON items.category_id = categories.id`,
keeping `items.id` for `WHERE` clauses. -/
structure JoinRow where
  itemId : Nat
  item : Item
deriving DecidableEq

/-- The join `items JOIN categories ON items.category_id = categories.id`,
materialized in nested-loop order (items outer, categories inner). -/
def joinRows (itemsL : List ItemRow) (cats : List CategoryRow) : List JoinRow :=
  itemsL.flatMap (fun it =>
    (cats.filter (fun c => c.id == it.categoryId)).map
      (fun c => ⟨it.id, ⟨it.name, c.name, it.imageName⟩⟩))

/-- The join of a database's two tables. -/
def joinItemsCategories (db : DBState) : List JoinRow :=
  joinRows db.items db.categories

/-- An HTTP error as produced by `echo.NewHTTPError` / error JSON replies. -/
structure HTTPError where
  status : Nat
  message : String
deriving DecidableEq

/-- `readItems` from the source: the join projected to name and category
(`ScanRowsToItems` scans only those two columns, leaving `image_name` empty). -/
def readItems (db : DBState) : List Item :=
  (joinItemsCategories db).map (fun r => ⟨r.item.name, r.item.category, ""⟩)

/- ### SQLite `LIKE` -/

/-- SQLite's default `LIKE` case folding: ASCII uppercase letters compare
equal to their lowercase counterparts. -/
def charFold (c : Char) : Char :=
  if 'A' ≤ c ∧ c ≤ 'Z' then Char.ofNat (c.toNat + 32) else c

/-- Fuel-driven SQLite `LIKE` matcher: `%` matches any sequence, `_` any
single character, anything else itself up to ASCII case. -/
def likeAux : Nat → List Char → List Char → Bool
  | 0, _, _ => false
  | _ + 1, [], t => t.isEmpty
  | fuel + 1, p :: ps, t =>
    if p = '%' then
      match t with
      | [] => likeAux fuel ps []
      | _ :: ts => likeAux fuel ps t || likeAux fuel (p :: ps) ts
    else if p = '_' then
      match t with
      | [] => false
      | _ :: ts => likeAux fuel ps ts
    else
      match t with
      | [] => false
      | c :: ts => (charFold p == charFold c) && likeAux fuel ps ts

/-- `text LIKE pattern` under SQLite's default (ASCII case-insensitive)
semantics. -/
def likeMatch (p t : List Char) : Bool :=
  likeAux (p.length + t.length + 1) p t

/-- `searchItems` from the source: the join filtered by
`items.name LIKE '%' || keyword || '%'`, projected like `readItems`. -/
def searchItems (db : DBState) (keyword : String) : List Item :=
  let key := "%" ++ keyword ++ "%"
  ((joinItemsCategories db).filter
      (fun r => likeMatch key.data r.item.name.data)).map
    (fun r => ⟨r.item.name, r.item.category, ""⟩)

/-- `getInfoById` from the source (id already parsed): `QueryRow` on the join
with `WHERE items.id = ?`; both a missing row (`ErrNoRows`) and any other
scan failure are answered with the same HTTP 500 reply. -/
def getInfoById (db : DBState) (id : Nat) : Except HTTPError Item :=
  match (joinItemsCategories db).find? (fun r => r.itemId == id) with
  | some r => .ok r.item
  | none => .error ⟨500, "Error while searching item with ID"⟩

/- ## Image serving (`getImg`) -/

/-- Exact character-list equality of a candidate with a text's head. -/
def strStarts : List Char → List Char → Bool
  | [], _ => true
  | _ :: _, [] => false
  | a :: as, b :: bs => (a == b) && strStarts as bs

/-- `strings.HasSuffix`: the suffix occurs at the end of the string. -/
def endsWithList (suffix l : List Char) : Bool :=
  strStarts suffix.reverse l.reverse

/-- The images directory constant of the source. -/
def ImgDir : String := "images"

/-- `getImg` from the source, on a path parameter (which, being a single
path segment, contains no separator): build `ImgDir/param`, reject paths not
ending in `.jpg` with HTTP 400, substitute `default.jpg` when `os.Stat`
fails, and serve the resulting file's bytes (`c.File` answers HTTP 404 if
even that file is missing). -/
def getImg (fs : FileSys) (param : String) : Except HTTPError Bytes :=
  let imgPath := ImgDir ++ "/" ++ param
  if !(endsWithList ".jpg".data imgPath.data) then
    .error ⟨400, "Image path does not end with .jpg"⟩
  else
    match fsLookup fs param with
    | some content => .ok content
    | none =>
      match fsLookup fs "default.jpg" with
      | some content => .ok content
      | none => .error ⟨404, "file not found"⟩

/- ## Legacy JSON-file backend (`go/app/main.go`) -/

namespace Legacy

/-- An item record of the JSON document (no id is stored). -/
structure Item where
  name : String
  category : String
  imageName : String
deriving DecidableEq

/-- How a lookup in the legacy backend can fail: the id guard, or — never,
as proved below — an out-of-bounds list access (a Go slice-index panic). -/
inductive Err
  | invalidId
  | indexOOB
deriving DecidableEq

/-- `getInfo` from the legacy source (id already parsed, items already read
from the JSON file): ids outside `[1, len]` are rejected, otherwise the
record at 1-based position `id` is returned. The `indexOOB` branch stands
for the slice-index panic Go would raise were the guard insufficient. -/
def getInfo (items : List Item) (itemId : Int) : Except Err Item :=
  if itemId ≤ 0 ∨ itemId > items.length then .error .invalidId
  else
    match items.get? (itemId - 1).toNat with
    | some it => .ok it
    | none => .error .indexOOB

end Legacy

/- ## Specification-side definitions (from the claims' words) -/

/-- Claim-side predicate: `k` occurs in `s` as a plain (case-sensitive)
substring. -/
def strContains (k : List Char) : List Char → Bool
  | [] => k.isEmpty
  | c :: t => strStarts k (c :: t) || strContains k t

/-- ASCII case-insensitive variant of `strStarts`. -/
def ciStarts : List Char → List Char → Bool
  | [], _ => true
  | _ :: _, [] => false
  | a :: as, b :: bs => (charFold a == charFold b) && ciStarts as bs

/-- `k` occurs in `s` as a substring up to ASCII case. -/
def ciContains (k : List Char) : List Char → Bool
  | [] => k.isEmpty
  | c :: t => ciStarts k (c :: t) || ciContains k t

/-- The search result the claim describes: the stored items whose name
contains the keyword as a plain substring. -/
def claimedSearch (db : DBState) (keyword : String) : List Item :=
  ((joinItemsCategories db).filter
      (fun r => strContains keyword.data r.item.name.data)).map
    (fun r => ⟨r.item.name, r.item.category, ""⟩)

/-- The claim's `NotFound` classification: failure with an HTTP 404 status. -/
def failsWithNotFound (r : Except HTTPError Item) : Prop :=
  ∃ e, r = Except.error e ∧ e.status = 404

/-- The keyword contains neither of SQLite's `LIKE` wildcards. -/
def wildcardFree (keyword : String) : Bool :=
  keyword.data.all (fun c => !(c == '%') && !(c == '_'))

/-- Store well-formedness, maintained by the write path: rowids already
assigned are below the next free one, and category rowids are unique (they
are the table's primary key). -/
def WFdb (db : DBState) : Prop :=
  (∀ r ∈ db.categories, r.id < db.nextCategoryId) ∧
  (∀ r ∈ db.items, r.id < db.nextItemId) ∧
  (db.categories.map (fun r => r.id)).Nodup

/- ## Concrete stores used by witnesses and counterexamples -/

/-- The empty database, next rowid 1 in both tables (SQLite starts at 1). -/
def emptyDB : DBState := ⟨[], [], 1, 1⟩

/-- A database whose category table holds two rows with the same name — the
duplicate state the missing uniqueness constraint admits. -/
def dupDB : DBState := ⟨[⟨1, "fashion"⟩, ⟨2, "fashion"⟩], [], 3, 1⟩

/-- A one-item store whose item is named with an uppercase letter. -/
def upperDB : DBState := ⟨[⟨1, "fashion"⟩], [⟨1, "A", "x.jpg", 1⟩], 2, 2⟩

/-- A small well-formed store with one category and one item. -/
def sampleDB : DBState := ⟨[⟨1, "fashion"⟩], [⟨1, "jacket", "a.jpg", 1⟩], 2, 2⟩

/-- An images directory holding a placeholder and one blob. -/
def sampleFS : FileSys := [("default.jpg", [7, 7]), ("a.jpg", [1, 2, 3])]

/- ## Helper lemmas -/

/-- Writing a file makes its content readable under the name written. -/
theorem fsLookup_fsWrite_self (fs : FileSys) (name : String) (content : Bytes) :
    fsLookup (fsWrite fs name content) name = some content := by
  induction fs with
  | nil => simp [fsWrite, fsLookup]
  | cons e rest ih =>
    by_cases h : e.1 == name
    · simp [fsWrite, fsLookup, h]
    · simp only [fsWrite, h, if_neg, Bool.false_eq_true, not_false_eq_true, if_false]
      simpa [fsLookup, List.find?_cons, h] using ih

/- ## C3: content-addressed image writes -/

/-- C3: `saveImage` returns `hex(sha256(b)) ++ ".jpg"`, a pure function of
the content; a second call with the same bytes returns the same reference,
and after either call the stored content under that reference equals `b`. -/
theorem saveImage_content_addressed (fs : FileSys) (b : Bytes) :
    (saveImage fs b).1 = hexDigest (sha256 b) ++ ".jpg" ∧
    (saveImage (saveImage fs b).2 b).1 = (saveImage fs b).1 ∧
    fsLookup (saveImage fs b).2 (saveImage fs b).1 = some b ∧
    fsLookup (saveImage (saveImage fs b).2 b).2 (saveImage fs b).1 = some b := by
  refine ⟨rfl, rfl, ?_, ?_⟩ <;>
    simp [saveImage, fsLookup_fsWrite_self]

/- ## C9: positional lookup in the legacy backend -/

/-- C9: in the legacy JSON backend, ids in `[1, length]` return the id-th
record of the list counting from 1 (the id is the position, not a stored
field), and every id outside that range is answered with an error. -/
theorem legacy_getInfo_positional (items : List Legacy.Item) (itemId : Int) :
    (1 ≤ itemId ∧ itemId ≤ items.length →
      ∃ it, items.get? (itemId - 1).toNat = some it ∧
        Legacy.getInfo items itemId = .ok it) ∧
    (itemId ≤ 0 ∨ itemId > items.length →
      Legacy.getInfo items itemId = .error .invalidId) := by
  constructor
  · rintro ⟨h1, h2⟩
    have hlt : (itemId - 1).toNat < items.length := by omega
    refine ⟨items.get ⟨(itemId - 1).toNat, hlt⟩, List.get?_eq_get hlt, ?_⟩
    rw [Legacy.getInfo, if_neg (by omega), List.get?_eq_get hlt]
  · intro h
    rw [Legacy.getInfo, if_pos h]

/-- Witness for C9 on a concrete two-element list: id 2 returns the second
record, id 0 and id 3 are rejected. -/
theorem legacy_getInfo_positional_witness :
    (∃ it, ([⟨"jacket", "fashion", "a.jpg"⟩, ⟨"scarf", "fashion", "b.jpg"⟩] :
        List Legacy.Item).get? ((2 : Int) - 1).toNat = some it ∧
      Legacy.getInfo [⟨"jacket", "fashion", "a.jpg"⟩, ⟨"scarf", "fashion", "b.jpg"⟩] 2 = .ok it) ∧
    Legacy.getInfo [⟨"jacket", "fashion", "a.jpg"⟩, ⟨"scarf", "fashion", "b.jpg"⟩] 3
      = .error .invalidId :=
  ⟨(legacy_getInfo_positional _ 2).1 (by constructor <;> decide),
   (legacy_getInfo_positional _ 3).2 (by right; decide)⟩

/- ## C10: the legacy lookup never indexes out of bounds -/

/-- C10: every run of the legacy `getInfo` either takes the guard's error
branch (which it does for every id outside `[1, length]`, including 0 and
negative ids) or accesses the list at an index that is provably in bounds;
the out-of-bounds branch is unreachable. -/
theorem legacy_getInfo_no_oob (items : List Legacy.Item) (itemId : Int) :
    ((itemId ≤ 0 ∨ itemId > items.length) ∧
        Legacy.getInfo items itemId = .error .invalidId) ∨
    ∃ h : (itemId - 1).toNat < items.length,
      Legacy.getInfo items itemId = .ok (items.get ⟨(itemId - 1).toNat, h⟩) := by
  by_cases hg : itemId ≤ 0 ∨ itemId > items.length
  · exact Or.inl ⟨hg, by rw [Legacy.getInfo, if_pos hg]⟩
  · push_neg at hg
    have hlt : (itemId - 1).toNat < items.length := by omega
    exact Or.inr ⟨hlt, by rw [Legacy.getInfo, if_neg (by omega), List.get?_eq_get hlt]⟩

/-- What a successful `checkCategoryId` guarantees: the transaction's items
table and next item rowid are untouched, the returned id names a category
row with the requested name, and the category table either was left alone
(the name existed) or was extended by exactly the one new row. -/
theorem checkCategoryId_ok (o : DBOracle) (category : String) (tx : DBState)
    (cid : Nat) (tx1 : DBState)
    (h : checkCategoryId o category tx = .ok (cid, tx1)) :
    tx1.items = tx.items ∧ tx1.nextItemId = tx.nextItemId ∧
    (∃ row ∈ tx1.categories, row.id = cid ∧ row.name = category) ∧
    (tx1.categories = tx.categories ∨
      tx1.categories = tx.categories ++ [⟨cid, category⟩]) := by
  unfold checkCategoryId at h
  split at h
  · exact absurd h (by simp)
  · split at h
    · rename_i row hfind
      simp only [Except.ok.injEq, Prod.mk.injEq] at h
      obtain ⟨hid, htx⟩ := h
      subst htx
      unfold findCategory at hfind
      refine ⟨rfl, rfl, ⟨row, List.mem_of_find?_eq_some hfind, hid, ?_⟩, Or.inl rfl⟩
      simpa using List.find?_some hfind
    · split at h
      · exact absurd h (by simp)
      · split at h
        · exact absurd h (by simp)
        · simp only [Except.ok.injEq, Prod.mk.injEq] at h
          obtain ⟨hid, htx⟩ := h
          subst htx
          refine ⟨rfl, rfl, ⟨⟨cid, category⟩, ?_, rfl, rfl⟩, Or.inr (by rw [← hid])⟩
          rw [← hid]
          simp

/-- C1: `saveItem` is atomic — on any step's failure the committed store is
exactly the starting store (no orphan item, no orphan category), and on
success the committed store extends the starting one by exactly the new item
row, whose category id names a category row with the requested name that
either pre-existed or is the single row the same transaction created. -/
theorem saveItem_atomic (o : DBOracle) (db : DBState)
    (name category fileName : String) :
    (∀ e, (saveItem o db name category fileName).result = .error e →
        (saveItem o db name category fileName).db = db) ∧
    (∀ id, (saveItem o db name category fileName).result = .ok id →
      ∃ cid,
        (saveItem o db name category fileName).db.items
            = db.items ++ [⟨id, name, fileName, cid⟩] ∧
        (∃ row ∈ (saveItem o db name category fileName).db.categories,
            row.id = cid ∧ row.name = category) ∧
        ((saveItem o db name category fileName).db.categories = db.categories ∨
          (saveItem o db name category fileName).db.categories
            = db.categories ++ [⟨cid, category⟩])) := by
  by_cases hb : o.beginFails = true
  · simp [saveItem, hb]
  · cases hcc : checkCategoryId o category db with
    | error e => simp [saveItem, hb, hcc]
    | ok p =>
      obtain ⟨cid, tx1⟩ := p
      obtain ⟨hitems, hnext, ⟨row, hmem, hrid, hrname⟩, hcats⟩ :=
        checkCategoryId_ok o category db cid tx1 hcc
      by_cases hi : o.itemInsertFails = true
      · simp [saveItem, hb, hcc, hi]
      · by_cases hcf : o.commitFails = true
        · simp [saveItem, hb, hcc, hi, hcf]
        · constructor
          · intro e he
            simp [saveItem, hb, hcc, hi, hcf] at he
          · intro id hid
            simp only [saveItem, hb, hcc, hi, hcf, if_false, Bool.false_eq_true,
              Except.ok.injEq] at hid ⊢
            subst hid
            exact ⟨cid, by rw [hitems, hnext], ⟨row, hmem, hrid, hrname⟩, hcats⟩

/-- Witness for C1: with a failing commit nothing is committed; with no
failure the item and its category are committed together. -/
theorem saveItem_atomic_witness :
    (saveItem ⟨false, false, false, false, false, true, false⟩ emptyDB
        "jacket" "fashion" "a.jpg").db = emptyDB ∧
    ∃ cid,
      (saveItem noFail emptyDB "jacket" "fashion" "a.jpg").db.items
          = emptyDB.items ++ [⟨1, "jacket", "a.jpg", cid⟩] ∧
      (∃ row ∈ (saveItem noFail emptyDB "jacket" "fashion" "a.jpg").db.categories,
          row.id = cid ∧ row.name = "fashion") ∧
      ((saveItem noFail emptyDB "jacket" "fashion" "a.jpg").db.categories
          = emptyDB.categories ∨
        (saveItem noFail emptyDB "jacket" "fashion" "a.jpg").db.categories
          = emptyDB.categories ++ [⟨cid, "fashion"⟩]) :=
  ⟨(saveItem_atomic ⟨false, false, false, false, false, true, false⟩ emptyDB
      "jacket" "fashion" "a.jpg").1 .commitTx (by decide),
   (saveItem_atomic noFail emptyDB "jacket" "fashion" "a.jpg").2 1 (by decide)⟩

/-- C8: the best-effort rollback never masks the outcome — the value
returned to the caller and the committed store are independent of whether
the deferred rollback fails, and when the commit succeeds the call returns
success while the deferred rollback's failure is merely logged. -/
theorem saveItem_rollback_transparent (o : DBOracle) (b : Bool) (db : DBState)
    (name category fileName : String) :
    ((saveItem { o with rollbackFails := b } db name category fileName).result
        = (saveItem o db name category fileName).result ∧
      (saveItem { o with rollbackFails := b } db name category fileName).db
        = (saveItem o db name category fileName).db) ∧
    (∀ id, (saveItem o db name category fileName).result = .ok id →
      (saveItem o db name category fileName).result = .ok id ∧
      (saveItem o db name category fileName).rollbackLogged = true) := by
  obtain ⟨f1, f2, f3, f4, f5, f6, f7⟩ := o
  have hcc : checkCategoryId ⟨f1, f2, f3, f4, f5, f6, b⟩ category db
      = checkCategoryId ⟨f1, f2, f3, f4, f5, f6, f7⟩ category db := rfl
  cases f1
  · cases hc : checkCategoryId ⟨false, f2, f3, f4, f5, f6, f7⟩ category db with
    | error e =>
      refine ⟨?_, ?_⟩
      · simp [saveItem, hcc, hc]
      · intro id hid
        simp [saveItem, hc] at hid
    | ok p =>
      obtain ⟨cid, tx1⟩ := p
      cases f5
      · cases f6
        · exact ⟨by simp [saveItem, hcc, hc], fun id hid => ⟨hid, by simp [saveItem, hc]⟩⟩
        · refine ⟨by simp [saveItem, hcc, hc], ?_⟩
          intro id hid
          simp [saveItem, hc] at hid
      · refine ⟨by simp [saveItem, hcc, hc], ?_⟩
        intro id hid
        simp [saveItem, hc] at hid
  · refine ⟨by simp [saveItem], ?_⟩
    intro id hid
    simp [saveItem] at hid

/-- Witness for C8 on a concrete store and oracle: flipping the rollback
flag changes neither the result nor the store, and the successful call
reports the no-op rollback failure only in the log. -/
theorem saveItem_rollback_transparent_witness :
    ((saveItem { noFail with rollbackFails := true } sampleDB
        "scarf" "fashion" "b.jpg").result
      = (saveItem noFail sampleDB "scarf" "fashion" "b.jpg").result ∧
     (saveItem { noFail with rollbackFails := true } sampleDB
        "scarf" "fashion" "b.jpg").db
      = (saveItem noFail sampleDB "scarf" "fashion" "b.jpg").db) ∧
    ((saveItem noFail sampleDB "scarf" "fashion" "b.jpg").result = .ok 2 ∧
     (saveItem noFail sampleDB "scarf" "fashion" "b.jpg").rollbackLogged = true) :=
  ⟨(saveItem_rollback_transparent noFail true sampleDB "scarf" "fashion" "b.jpg").1,
   (saveItem_rollback_transparent noFail true sampleDB "scarf" "fashion" "b.jpg").2
     2 (by decide)⟩

/-- Counterexample to C2 as stated: in a store where the missing uniqueness
constraint has already admitted two rows named `"fashion"`, resolve-or-create
returns the first row's id and changes nothing — so calling it twice still
leaves two rows with that name, not exactly one. -/
theorem checkCategoryId_dup_counterexample :
    checkCategoryId noFail "fashion" dupDB = .ok (1, dupDB) ∧
    (dupDB.categories.filter (fun r => r.name == "fashion")).length = 2 ∧
    ¬ (dupDB.categories.filter (fun r => r.name == "fashion")).length = 1 := by
  refine ⟨by decide, by decide, by decide⟩

/-- C2 (amended): provided at most one category row with name `c` exists to
begin with, resolve-or-create called twice returns the same id both times,
the second call does not change the store, exactly one row named `c` exists
afterwards, and the id is the existing row's id when the name was present,
or the newly assigned id of the single inserted row otherwise. -/
theorem checkCategoryId_idempotent (c : String) (db : DBState)
    (huniq : (db.categories.filter (fun r => r.name == c)).length ≤ 1) :
    ∃ id db1,
      checkCategoryId noFail c db = .ok (id, db1) ∧
      checkCategoryId noFail c db1 = .ok (id, db1) ∧
      (db1.categories.filter (fun r => r.name == c)).length = 1 ∧
      (∀ row, findCategory db.categories c = some row → id = row.id ∧ db1 = db) ∧
      (findCategory db.categories c = none →
        id = db.nextCategoryId ∧
        db1.categories = db.categories ++ [⟨id, c⟩]) := by
  cases hfc : findCategory db.categories c with
  | some row =>
    have hfc' : List.find? (fun r => r.name == c) db.categories = some row := hfc
    refine ⟨row.id, db, ?_, ?_, ?_, ?_, ?_⟩
    · simp [checkCategoryId, noFail, hfc]
    · simp [checkCategoryId, noFail, hfc]
    · have hmem : row ∈ db.categories.filter (fun r => r.name == c) := by
        have hp := List.find?_some hfc'
        rw [List.mem_filter]
        exact ⟨List.mem_of_find?_eq_some hfc', hp⟩
      have hpos : 0 < (db.categories.filter (fun r => r.name == c)).length :=
        List.length_pos.2 (List.ne_nil_of_mem hmem)
      omega
    · intro row' hrow'
      injection hrow' with h3
      exact ⟨by rw [h3], rfl⟩
    · intro hnone
      exact absurd hnone (by simp)
  | none =>
    have hfc' : List.find? (fun r => r.name == c) db.categories = none := hfc
    have hempty : db.categories.filter (fun r => r.name == c) = [] := by
      rw [List.filter_eq_nil_iff]
      intro a ha
      simpa using List.find?_eq_none.1 hfc' a ha
    refine ⟨db.nextCategoryId,
      { db with categories := db.categories ++ [⟨db.nextCategoryId, c⟩],
                nextCategoryId := db.nextCategoryId + 1 }, ?_, ?_, ?_, ?_, ?_⟩
    · simp [checkCategoryId, noFail, hfc]
    · have hfind1 : findCategory
          (db.categories ++ [⟨db.nextCategoryId, c⟩]) c
          = some ⟨db.nextCategoryId, c⟩ := by
        unfold findCategory
        rw [List.find?_append, hfc']
        simp
      simp [checkCategoryId, noFail, hfind1]
    · simp [List.filter_append, hempty]
    · intro row' hrow'
      exact absurd hrow' (by simp)
    · intro _
      exact ⟨rfl, rfl⟩

/-- Witness for C2 (amended) on the empty store: the hypothesis (at most one
row named `"fashion"`) holds vacuously, and the theorem yields the
idempotence and uniqueness facts there. -/
theorem checkCategoryId_idempotent_witness :
    ∃ id db1,
      checkCategoryId noFail "fashion" emptyDB = .ok (id, db1) ∧
      checkCategoryId noFail "fashion" db1 = .ok (id, db1) ∧
      (db1.categories.filter (fun r => r.name == "fashion")).length = 1 ∧
      (∀ row, findCategory emptyDB.categories "fashion" = some row →
        id = row.id ∧ db1 = emptyDB) ∧
      (findCategory emptyDB.categories "fashion" = none →
        id = emptyDB.nextCategoryId ∧
        db1.categories = emptyDB.categories ++ [⟨id, "fashion"⟩]) :=
  checkCategoryId_idempotent "fashion" emptyDB (by decide)

/-- No row of the join carries an item id that no item row has. -/
theorem joinRows_find?_none (itemsL : List ItemRow) (cats : List CategoryRow)
    (id : Nat) (h : ∀ it ∈ itemsL, it.id ≠ id) :
    (joinRows itemsL cats).find? (fun r => r.itemId == id) = none := by
  rw [List.find?_eq_none]
  intro x hx
  simp only [joinRows, List.mem_flatMap, List.mem_map, List.mem_filter] at hx
  obtain ⟨it, hit, c, _, hxc⟩ := hx
  have : x.itemId = it.id := by rw [← hxc]
  simpa [this] using h it hit

/-- Counterexample to C5 as stated: on the empty store, looking item 999 up
fails — but with the generic HTTP 500 server-fault reply, not with a
`NotFound` (404) client-fault classification. -/
theorem getInfoById_counterexample :
    getInfoById emptyDB 999 = .error ⟨500, "Error while searching item with ID"⟩ ∧
    ¬ failsWithNotFound (getInfoById emptyDB 999) := by
  refine ⟨rfl, ?_⟩
  rintro ⟨e, he, hs⟩
  have : (Except.error ⟨500, "Error while searching item with ID"⟩ :
      Except HTTPError Item) = .error e := he
  injection this with h2
  rw [← h2] at hs
  exact absurd hs (by decide)

/-- C5 (amended): for every id no item row carries, `getInfoById` fails —
with the handler's uniform internal-server-error reply (HTTP 500), since the
source answers `ErrNoRows` and genuine query failures alike with it. -/
theorem getInfoById_missing (db : DBState) (id : Nat)
    (h : ∀ it ∈ db.items, it.id ≠ id) :
    getInfoById db id = .error ⟨500, "Error while searching item with ID"⟩ := by
  unfold getInfoById joinItemsCategories
  rw [joinRows_find?_none db.items db.categories id h]

/-- Witness for C5 (amended): the empty store holds no item 999, and the
lookup answers with the 500 reply. -/
theorem getInfoById_missing_witness :
    getInfoById emptyDB 999 = .error ⟨500, "Error while searching item with ID"⟩ :=
  getInfoById_missing emptyDB 999 (by simp [emptyDB])

/-- Prepending the reversed images-directory prefix does not affect a match
against the reversed `".jpg"` suffix: the prefix's first character `'/'`
cannot complete the suffix. -/
theorem strStarts_jpg_append (l : List Char) :
    strStarts ['g', 'p', 'j', '.'] (l ++ ['/', 's', 'e', 'g', 'a', 'm', 'i'])
      = strStarts ['g', 'p', 'j', '.'] l := by
  match l with
  | [] => rfl
  | [a] => rfl
  | [a, b] => rfl
  | [a, b, c] => rfl
  | a :: b :: c :: d :: rest => rfl

/-- The `.jpg` suffix check of the source, made on the joined path
`images/param`, agrees with the same check made on the parameter itself. -/
theorem endsWithList_img (param : String) :
    endsWithList ".jpg".data (ImgDir ++ "/" ++ param).data
      = endsWithList ".jpg".data param.data := by
  obtain ⟨pdata⟩ := param
  have hd : (ImgDir ++ "/" ++ String.mk pdata).data = "images/".data ++ pdata := rfl
  rw [hd, endsWithList, endsWithList, List.reverse_append]
  exact strStarts_jpg_append pdata.reverse

/-- C7: image serving rejects references not ending in `.jpg` with an HTTP
400 reply; for well-suffixed references it serves the stored blob's bytes
when the file exists and the default placeholder's bytes — with no error —
when it does not. -/
theorem getImg_spec (fs : FileSys) (param : String) (dflt : Bytes)
    (hdef : fsLookup fs "default.jpg" = some dflt) :
    (endsWithList ".jpg".data param.data = false →
      getImg fs param = .error ⟨400, "Image path does not end with .jpg"⟩) ∧
    (endsWithList ".jpg".data param.data = true →
      (∀ b, fsLookup fs param = some b → getImg fs param = .ok b) ∧
      (fsLookup fs param = none → getImg fs param = .ok dflt)) := by
  constructor
  · intro h
    simp only [getImg]
    rw [endsWithList_img, h]
    rfl
  · intro h
    constructor
    · intro b hb
      simp only [getImg]
      rw [endsWithList_img, h]
      simp [hb]
    · intro hnone
      simp only [getImg]
      rw [endsWithList_img, h]
      simp [hnone, hdef]

/-- Witness for C7 on a concrete images directory: a malformed reference is
rejected with 400, a stored blob is served, and a missing blob falls back to
the placeholder bytes. -/
theorem getImg_spec_witness :
    getImg sampleFS "evil.png" = .error ⟨400, "Image path does not end with .jpg"⟩ ∧
    getImg sampleFS "a.jpg" = .ok [1, 2, 3] ∧
    getImg sampleFS "missing.jpg" = .ok [7, 7] :=
  ⟨(getImg_spec sampleFS "evil.png" [7, 7] (by decide)).1 (by decide),
   (getImg_spec sampleFS "a.jpg" [7, 7] (by decide)).2 (by decide) |>.1 [1, 2, 3] (by decide),
   (getImg_spec sampleFS "missing.jpg" [7, 7] (by decide)).2 (by decide) |>.2 (by decide)⟩

/-- The join splits over a split of the items table. -/
theorem joinRows_append (l1 l2 : List ItemRow) (cats : List CategoryRow) :
    joinRows (l1 ++ l2) cats = joinRows l1 cats ++ joinRows l2 cats := by
  unfold joinRows
  exact List.flatMap_append l1 l2 _

/-- With unique category rowids, filtering the table by a member row's id
keeps exactly that row. -/
theorem filter_id_eq_single (cats : List CategoryRow) (row : CategoryRow)
    (hnd : (cats.map (fun r => r.id)).Nodup) (hmem : row ∈ cats) :
    cats.filter (fun c => c.id == row.id) = [row] := by
  induction cats with
  | nil => cases hmem
  | cons c rest ih =>
    rw [List.map_cons, List.nodup_cons] at hnd
    obtain ⟨hnotin, hnd2⟩ := hnd
    rcases List.mem_cons.1 hmem with h | h
    · subst h
      have hrest : rest.filter (fun x => x.id == row.id) = [] := by
        rw [List.filter_eq_nil_iff]
        intro a ha
        simp only [beq_iff_eq]
        intro heq
        exact hnotin (heq ▸ List.mem_map_of_mem _ ha)
      simp [List.filter_cons, hrest]
    · have hne : (c.id == row.id) = false := by
        simp only [beq_eq_false_iff_ne, ne_eq]
        intro heq
        exact hnotin (heq ▸ List.mem_map_of_mem _ h)
      rw [List.filter_cons, hne]
      exact ih hnd2 h

/-- C4: on a well-formed store, creating `(name, category)` with the image
reference `hex(sha256(bytes)) ++ ".jpg"` succeeds, and reading the created
item's id back materializes exactly the submitted name, the category's name
through the join, and that image reference. -/
theorem create_then_getById (db : DBState) (name category : String) (bytes : Bytes)
    (hwf : WFdb db) :
    ∃ id,
      (saveItem noFail db name category
          (hexDigest (sha256 bytes) ++ ".jpg")).result = .ok id ∧
      getInfoById
          (saveItem noFail db name category
            (hexDigest (sha256 bytes) ++ ".jpg")).db id
        = .ok ⟨name, category, hexDigest (sha256 bytes) ++ ".jpg"⟩ := by
  obtain ⟨hwfc, hwfi, hnd⟩ := hwf
  generalize hexDigest (sha256 bytes) ++ ".jpg" = ref
  have hfresh : ∀ it ∈ db.items, it.id ≠ db.nextItemId :=
    fun it hit => Nat.ne_of_lt (hwfi it hit)
  cases hfc : findCategory db.categories category with
  | some row =>
    have hrow_mem : row ∈ db.categories := by
      have hfc2 : List.find? (fun r => r.name == category) db.categories
          = some row := hfc
      exact List.mem_of_find?_eq_some hfc2
    have hrow_name := List.find?_some
      (show List.find? (fun r => r.name == category) db.categories = some row from hfc)
    simp only [beq_iff_eq] at hrow_name
    have hsave : saveItem noFail db name category ref =
        ⟨{ db with items := db.items ++ [⟨db.nextItemId, name, ref, row.id⟩],
                   nextItemId := db.nextItemId + 1 },
         .ok db.nextItemId, true⟩ := by
      simp [saveItem, checkCategoryId, noFail, hfc]
    refine ⟨db.nextItemId, by rw [hsave], ?_⟩
    rw [hsave]
    unfold getInfoById joinItemsCategories
    simp only []
    rw [joinRows_append, List.find?_append,
      joinRows_find?_none db.items db.categories db.nextItemId hfresh]
    have hblock : joinRows [⟨db.nextItemId, name, ref, row.id⟩] db.categories
        = [⟨db.nextItemId, ⟨name, row.name, ref⟩⟩] := by
      unfold joinRows
      simp [filter_id_eq_single db.categories row hnd hrow_mem]
    rw [hblock]
    simp [hrow_name]
  | none =>
    have hold : ∀ r ∈ db.categories, (r.id == db.nextCategoryId) = false := by
      intro r hr
      simp only [beq_eq_false_iff_ne, ne_eq]
      exact Nat.ne_of_lt (hwfc r hr)
    have hsave : saveItem noFail db name category ref =
        ⟨{ db with
             categories := db.categories ++ [⟨db.nextCategoryId, category⟩],
             nextCategoryId := db.nextCategoryId + 1,
             items := db.items ++ [⟨db.nextItemId, name, ref, db.nextCategoryId⟩],
             nextItemId := db.nextItemId + 1 },
         .ok db.nextItemId, true⟩ := by
      simp [saveItem, checkCategoryId, noFail, hfc]
    refine ⟨db.nextItemId, by rw [hsave], ?_⟩
    rw [hsave]
    unfold getInfoById joinItemsCategories
    simp only []
    rw [joinRows_append, List.find?_append,
      joinRows_find?_none db.items _ db.nextItemId hfresh]
    have hblock : joinRows [⟨db.nextItemId, name, ref, db.nextCategoryId⟩]
        (db.categories ++ [⟨db.nextCategoryId, category⟩])
        = [⟨db.nextItemId, ⟨name, category, ref⟩⟩] := by
      unfold joinRows
      have hfilter : List.filter (fun c => c.id == db.nextCategoryId)
          (db.categories ++ [(⟨db.nextCategoryId, category⟩ : CategoryRow)])
          = [⟨db.nextCategoryId, category⟩] := by
        have hnilold : List.filter (fun c => c.id == db.nextCategoryId)
            db.categories = [] := by
          rw [List.filter_eq_nil_iff]
          intro a ha
          simp only [beq_iff_eq]
          have := hwfc a ha
          omega
        rw [List.filter_append, hnilold]
        simp
      simp [hfilter]
      intro a ha
      have := hwfc a ha
      omega
    rw [hblock]
    simp

/-- Witness for C4: creating `("jacket", "fashion")` with the content
address of the bytes `[1, 2, 3]` on the empty store and reading the new id
back returns exactly those fields. -/
theorem create_then_getById_witness :
    ∃ id,
      (saveItem noFail emptyDB "jacket" "fashion"
          (hexDigest (sha256 [1, 2, 3]) ++ ".jpg")).result = .ok id ∧
      getInfoById
          (saveItem noFail emptyDB "jacket" "fashion"
            (hexDigest (sha256 [1, 2, 3]) ++ ".jpg")).db id
        = .ok ⟨"jacket", "fashion", hexDigest (sha256 [1, 2, 3]) ++ ".jpg"⟩ :=
  create_then_getById emptyDB "jacket" "fashion" [1, 2, 3]
    ⟨by decide, by decide, by decide⟩

/-- A lone `%` matches any text, given enough fuel. -/
theorem likeAux_percent (f : Nat) (t : List Char) (hf : t.length + 2 ≤ f) :
    likeAux f ['%'] t = true := by
  induction f generalizing t with
  | zero => omega
  | succ f ih =>
    cases t with
    | nil =>
      obtain ⟨g, rfl⟩ : ∃ g, f = g + 1 := ⟨f - 1, by omega⟩
      rfl
    | cons c ts =>
      have h1 : likeAux f ['%'] ts = true := ih ts (by simp at hf ⊢; omega)
      obtain ⟨g, rfl⟩ : ∃ g, f = g + 1 := ⟨f - 1, by omega⟩
      show (likeAux (g + 1) [] (c :: ts) || likeAux (g + 1) ['%'] ts) = true
      rw [h1, Bool.or_true]

/-- A wildcard-free pattern followed by `%` matches exactly the texts it is
a case-insensitive head of. -/
theorem likeAux_litPercent (f : Nat) (k t : List Char)
    (hk : ∀ c ∈ k, c ≠ '%' ∧ c ≠ '_') (hf : k.length + t.length + 2 ≤ f) :
    likeAux f (k ++ ['%']) t = ciStarts k t := by
  induction f generalizing k t with
  | zero => omega
  | succ f ih =>
    cases k with
    | nil =>
      rw [List.nil_append, likeAux_percent (f + 1) t (by simpa using hf)]
      rfl
    | cons a ks =>
      obtain ⟨ha1, ha2⟩ := hk a (List.mem_cons_self a ks)
      have hks : ∀ c ∈ ks, c ≠ '%' ∧ c ≠ '_' :=
        fun c hc => hk c (List.mem_cons_of_mem a hc)
      cases t with
      | nil =>
        simp only [List.cons_append, likeAux, if_neg ha1, if_neg ha2]
        rfl
      | cons b bs =>
        simp only [List.cons_append, likeAux, if_neg ha1, if_neg ha2,
          List.append_eq]
        rw [ih ks bs hks (by simp at hf ⊢; omega)]
        rfl

/-- A wildcard-free head pattern matches the empty text exactly when it is
empty. -/
theorem ciStarts_nil (k : List Char) : ciStarts k [] = k.isEmpty := by
  cases k <;> rfl

/-- The pattern `%k%` with wildcard-free `k` matches exactly the texts that
contain `k` up to ASCII case. -/
theorem likeAux_sandwich (f : Nat) (k t : List Char)
    (hk : ∀ c ∈ k, c ≠ '%' ∧ c ≠ '_') (hf : k.length + t.length + 3 ≤ f) :
    likeAux f ('%' :: (k ++ ['%'])) t = ciContains k t := by
  induction f generalizing t with
  | zero => omega
  | succ f ih =>
    cases t with
    | nil =>
      simp only [likeAux, if_pos rfl]
      rw [likeAux_litPercent f k [] hk (by simp at hf ⊢; omega), ciStarts_nil]
      rfl
    | cons c ts =>
      simp only [likeAux, if_pos rfl]
      rw [likeAux_litPercent f k (c :: ts) hk (by simp at hf ⊢; omega),
        ih ts (by simp at hf ⊢; omega)]
      rfl

/-- `LIKE '%' || k || '%'` with a wildcard-free keyword `k` is containment
up to ASCII case. -/
theorem likeMatch_sandwich (k t : List Char)
    (hk : ∀ c ∈ k, c ≠ '%' ∧ c ≠ '_') :
    likeMatch ('%' :: (k ++ ['%'])) t = ciContains k t := by
  unfold likeMatch
  exact likeAux_sandwich _ k t hk (by simp; omega)

/-- The empty keyword is contained in every text. -/
theorem ciContains_nil_left (t : List Char) : ciContains [] t = true := by
  cases t <;> rfl

/-- The characters of the `'%' || keyword || '%'` pattern the source builds. -/
theorem searchKey_data (kw : String) :
    ("%" ++ kw ++ "%").data = '%' :: (kw.data ++ ['%']) := by
  obtain ⟨l⟩ := kw
  rfl

/-- Counterexample to C6 as stated: the stored item named `"A"` is returned
for the keyword `"a"` (SQLite's default `LIKE` folds ASCII case), although
`"A"` does not contain `"a"` as a plain substring, so the search result is
not the plain-substring subset the claim describes. -/
theorem searchItems_counterexample :
    searchItems upperDB "a" = [⟨"A", "fashion", ""⟩] ∧
    claimedSearch upperDB "a" = [] := by
  exact ⟨by decide, by decide⟩

/-- C6 (amended): for every wildcard-free keyword, search returns exactly
the subset of the stored items (as listed, with their category names) whose
name contains the keyword as a substring up to ASCII case — and the empty
keyword returns every stored item. -/
theorem searchItems_ci_substring (db : DBState) (kw : String)
    (hw : wildcardFree kw = true) :
    searchItems db kw
      = (readItems db).filter (fun it => ciContains kw.data it.name.data) ∧
    searchItems db "" = readItems db := by
  have hkprop : ∀ c ∈ kw.data, c ≠ '%' ∧ c ≠ '_' := by
    unfold wildcardFree at hw
    intro c hc
    have h2 := List.all_eq_true.1 hw c hc
    simpa using h2
  constructor
  · unfold searchItems readItems
    simp only []
    rw [searchKey_data]
    have hfun : (fun r : JoinRow =>
          likeMatch ('%' :: (kw.data ++ ['%'])) r.item.name.data)
        = (fun r : JoinRow => ciContains kw.data r.item.name.data) :=
      funext fun r => likeMatch_sandwich kw.data r.item.name.data hkprop
    rw [hfun, List.filter_map]
    rfl
  · unfold searchItems readItems
    simp only []
    have hkey : (fun r : JoinRow =>
          likeMatch ("%" ++ "" ++ "%").data r.item.name.data)
        = (fun _ : JoinRow => true) := by
      refine funext fun r => ?_
      rw [show ("%" ++ "" ++ "%").data = '%' :: ([] ++ ['%']) from rfl,
        likeMatch_sandwich [] r.item.name.data (by simp),
        ciContains_nil_left]
    rw [hkey, List.filter_true]

/-- Witness for C6 (amended) with the wildcard-free keyword `"jack"` on a
concrete store, and the empty keyword there too. -/
theorem searchItems_ci_substring_witness :
    searchItems sampleDB "jack"
      = (readItems sampleDB).filter
          (fun it => ciContains "jack".data it.name.data) ∧
    searchItems sampleDB "" = readItems sampleDB :=
  searchItems_ci_substring sampleDB "jack" (by decide)
